import Mathlib

/-!
Verification of the FIX (Functional Interactions) dispatch engine of the
23carati site engine: the attribute scanner (`initializeFIX` in the FIX
initialization module), the event registry operations, and the two event
execution strategies (`EventDefault.invoke` in
`src/fix/events/event-default.ts` and `EventSequential.invoke` as given in
FIX-SEQUENTIAL.md).

Strings are embedded as lists of characters so that the JavaScript
`String.prototype.split` used by the scanner can be modelled exactly.
-/

/-- Attribute and event names: JavaScript strings, embedded as character lists. -/
abbrev Str := List Char

/-- Coerce a Lean string literal into the character-list embedding. -/
def str (s : String) : Str := s.data

/-- Model of the JavaScript `name.split(':')` call used by the scanner:
splitting an empty string yields one empty segment, and every colon starts a
new segment. -/
def splitColon : Str → List Str
  | [] => [[]]
  | c :: rest =>
    if c = ':' then
      [] :: splitColon rest
    else
      match splitColon rest with
      | [] => [[c]]
      | g :: gs => (c :: g) :: gs

/-- The scanner classification of a trigger attribute, from the FIX
initialization module: `attr.name.startsWith('trigger:')` and, with
`parts = attr.name.split(':')`, `parts.length >= 2 && parts[2] !== 'data'`. -/
def isTriggerAttrName (n : Str) : Bool :=
  (str "trigger:").isPrefixOf n &&
    (decide (2 ≤ (splitColon n).length) &&
      !((splitColon n).get? 2 == some (str "data")))

/-- The scanner classification of an action attribute, from the FIX
initialization module: `attr.name.startsWith('action:')` and
`parts.length >= 2` (no `data` exclusion on the action side). -/
def isActionAttrName (n : Str) : Bool :=
  (str "action:").isPrefixOf n && decide (2 ≤ (splitColon n).length)

/-- The type token of a binding attribute: `attribute.split(':')[1]`. -/
def triggerTypeOf (attrName : Str) : Str :=
  (splitColon attrName).getD 1 []

/-- An element attribute: name and literal value. -/
structure DomAttr where
  name : Str
  value : Str
deriving DecidableEq, Repr

/-- A document element: an identifier and its attribute list (in document
attribute-enumeration order). -/
structure Element where
  id : Nat
  attrs : List DomAttr
deriving DecidableEq, Repr

/-- An entry of the `triggerElements` / `actionElements` arrays the scanner
builds during its single pass: the element, the truncated binding attribute
name (`trigger:<type>` or `action:<type>`), and the event name (the
attribute value). -/
structure Binding where
  element : Nat
  attrName : Str
  eventName : Str
deriving DecidableEq, Repr

/-- A trigger instance as constructed by the scanner:
`new TriggerConstructor(element, eventName, attribute)`. -/
structure TriggerInst where
  element : Nat
  eventName : Str
  attrName : Str
deriving DecidableEq, Repr

/-- An action instance as constructed by the scanner:
`new ActionConstructor(element, attribute)`; programmatic actions have no
element. -/
structure ActionInst where
  element : Option Nat
  attrName : Str
deriving DecidableEq, Repr

/-- The execution strategy of a registered event handler. -/
inductive HandlerKind
  | default
  | sequential
deriving DecidableEq, Repr

/-- An event handler instance: the event name, its strategy, and the ordered
action list it owns (`this.actions` of `EventBase`, appended to by
`registerAction`). -/
structure Handler where
  eventName : Str
  kind : HandlerKind
  actions : List ActionInst
deriving DecidableEq, Repr

/-- Modelled from the spec: the FIX Type Registry is two independent
name-to-constructor maps, one for trigger implementations and one for action
implementations (its implementation module was migrated out of this
repository). Only membership of a type name decides the scanner branches, so
the registry is recorded as the lists of registered type names; every
registered constructor builds the instance records above from its arguments. -/
structure FIXRegistry where
  triggerTypes : List Str
  actionTypes : List Str
deriving DecidableEq, Repr

/-- Modelled from the spec: `getEvent(name)` of the Event Registry, a
name-to-handler map lookup returning the handler or absent (the registry
implementation module was migrated out of this repository). -/
def getEvent : List (Str × Handler) → Str → Option Handler
  | [], _ => none
  | p :: rest, n => if p.1 = n then some p.2 else getEvent rest n

/-- Modelled from the spec: `hasEvent(name)` of the Event Registry. -/
def hasEvent (evs : List (Str × Handler)) (n : Str) : Bool :=
  (getEvent evs n).isSome

/-- Modelled from the spec: `registerEvent(name, handler)` of the Event
Registry overwrites any prior handler registered under that name
unconditionally (JavaScript `Map.set` semantics: replace in place, else
append). -/
def registerEvent : List (Str × Handler) → Str → Handler → List (Str × Handler)
  | [], n, h => [(n, h)]
  | p :: rest, n, h => if p.1 = n then (n, h) :: rest else p :: registerEvent rest n h

/-- Modelled from the spec: `registerAction` of the event handler base class
appends the action instance to the ordered action list owned by the handler
registered under the given name. -/
def registerActionAt (evs : List (Str × Handler)) (n : Str) (inst : ActionInst) :
    List (Str × Handler) :=
  evs.map (fun p => if p.1 = n then (p.1, { p.2 with actions := p.2.actions ++ [inst] }) else p)

/-- The `ensureEvent` helper of the FIX initialization module: if the name is
absent from the Event Registry, create an `EventDefault` handler for it and
register it; otherwise do nothing. -/
def ensureEvent (evs : List (Str × Handler)) (eventName : Str) : List (Str × Handler) :=
  if !hasEvent evs eventName then
    registerEvent evs eventName ⟨eventName, HandlerKind.default, []⟩
  else
    evs

/-- The ordered action list currently registered under an event name (empty
when the event is absent). -/
def actsAt (evs : List (Str × Handler)) (n : Str) : List ActionInst :=
  match getEvent evs n with
  | some h => h.actions
  | none => []

/-- Initialization events: one per binding instance created and `init()`-ed
by the scanner, in execution order. -/
inductive InitEv
  | triggerInit (t : TriggerInst)
  | actionInit (a : ActionInst)
deriving DecidableEq, Repr

/-- Selects trigger initialization events. -/
def InitEv.isTriggerInit : InitEv → Bool
  | .triggerInit _ => true
  | .actionInit _ => false

/-- Selects action initialization events. -/
def InitEv.isActionInit : InitEv → Bool
  | .triggerInit _ => false
  | .actionInit _ => true

/-- The state built up by `initializeFIX`: the Event Registry contents, the
trigger and action instances created (in creation order), the trace of
`init()` calls, and the diagnostics emitted for unknown types. -/
structure FIXState where
  events : List (Str × Handler)
  triggerInits : List TriggerInst
  actionInits : List ActionInst
  trace : List InitEv
  diagnostics : List Str
deriving DecidableEq, Repr

/-- The scan phase of `initializeFIX` restricted to trigger attributes: for
every element, for every attribute whose name is classified as a trigger
attribute, record the element, the truncated attribute name
`trigger:<type>` with `<type> = parts[1]`, and the event name (the
attribute value). -/
def scanTriggers (doc : List Element) : List Binding :=
  doc.flatMap (fun e =>
    e.attrs.filterMap (fun a =>
      if isTriggerAttrName a.name then
        some ⟨e.id, str "trigger:" ++ (splitColon a.name).getD 1 [], a.value⟩
      else
        none))

/-- The scan phase of `initializeFIX` restricted to action attributes. -/
def scanActions (doc : List Element) : List Binding :=
  doc.flatMap (fun e =>
    e.attrs.filterMap (fun a =>
      if isActionAttrName a.name then
        some ⟨e.id, str "action:" ++ (splitColon a.name).getD 1 [], a.value⟩
      else
        none))

/-- Whether the trigger type token of a scanned binding is registered. -/
def recognizedT (reg : FIXRegistry) (b : Binding) : Bool :=
  reg.triggerTypes.contains (triggerTypeOf b.attrName)

/-- Whether the action type token of a scanned binding is registered. -/
def recognizedA (reg : FIXRegistry) (b : Binding) : Bool :=
  reg.actionTypes.contains (triggerTypeOf b.attrName)

/-- The trigger instance the scanner constructs for a recognized trigger
binding. -/
def mkTriggerInst (b : Binding) : TriggerInst :=
  ⟨b.element, b.eventName, b.attrName⟩

/-- The action instance the scanner constructs for a recognized action
binding. -/
def mkActionInst (b : Binding) : ActionInst :=
  ⟨some b.element, b.attrName⟩

/-- The trigger processing step of `initializeFIX`: look the type up in the
registry; if present, `ensureEvent(eventName)`, construct the trigger
instance and call `init()`; otherwise emit a diagnostic. -/
def processTrigger (reg : FIXRegistry) (st : FIXState) (b : Binding) : FIXState :=
  if recognizedT reg b then
    { st with
      events := ensureEvent st.events b.eventName
      triggerInits := st.triggerInits ++ [mkTriggerInst b]
      trace := st.trace ++ [InitEv.triggerInit (mkTriggerInst b)] }
  else
    { st with diagnostics := st.diagnostics ++ [str "Unknown trigger type: " ++ triggerTypeOf b.attrName] }

/-- The action processing step of `initializeFIX`: look the type up in the
registry; if present, `ensureEvent(eventName)`, construct the action
instance, call `init()`, then fetch the event and append the instance to its
action list; otherwise emit a diagnostic. -/
def processAction (reg : FIXRegistry) (st : FIXState) (b : Binding) : FIXState :=
  if recognizedA reg b then
    let evs1 := ensureEvent st.events b.eventName
    let inst := mkActionInst b
    let evs2 :=
      match getEvent evs1 b.eventName with
      | some _ => registerActionAt evs1 b.eventName inst
      | none => evs1
    { st with
      events := evs2
      actionInits := st.actionInits ++ [inst]
      trace := st.trace ++ [InitEv.actionInit inst] }
  else
    { st with diagnostics := st.diagnostics ++ [str "Unknown action type: " ++ triggerTypeOf b.attrName] }

/-- `initializeFIX` started from a given Event Registry state: one scan pass
collecting the trigger and action binding arrays, then the trigger
processing loop, then the action processing loop. -/
def initializeFIXFrom (reg : FIXRegistry) (evs0 : List (Str × Handler))
    (doc : List Element) : FIXState :=
  let ts := scanTriggers doc
  let bs := scanActions doc
  let st1 := ts.foldl (processTrigger reg) ⟨evs0, [], [], [], []⟩
  bs.foldl (processAction reg) st1

/-- `initializeFIX` of the FIX initialization module, run against an empty
Event Registry. -/
def initializeFIX (reg : FIXRegistry) (doc : List Element) : FIXState :=
  initializeFIXFrom reg [] doc

/-- Trigger data passed by a trigger to the event handler: a string-keyed
map of string values. -/
abbrev TriggerData := List (Str × Str)

/-- The observable behavior of one registered action when its `trigger`
method is called: it may return a pending operation that later resolves, one
that later rejects, or it may throw synchronously during the call itself. -/
inductive ActOutcome
  | resolves
  | rejects
  | throwsSync
deriving DecidableEq, Repr

/-- Events observable during one event-handler invocation: a `trigger` call
issued to the action at an index (with the trigger element and data the
handler passes), or the settlement of that action with success flag. -/
inductive Ev
  | call (i : Nat) (el : Nat) (data : TriggerData)
  | settle (i : Nat) (ok : Bool)
deriving DecidableEq, Repr

/-- The indices of the actions whose `trigger` was called, in call order. -/
def callsOf (tr : List Ev) : List Nat :=
  tr.filterMap (fun e =>
    match e with
    | Ev.call i _ _ => some i
    | _ => none)

/-- The `this.actions.forEach` loop of `EventDefault.invoke`
(`src/fix/events/event-default.ts`): call `trigger(element, data)` on each
action in order without awaiting; a synchronous throw propagates out of the
loop (there is no catch) and the remaining actions are not called. Returns
the emitted events and the index of the synchronously throwing action, if
any. -/
def defaultLoop (el : Nat) (d : TriggerData) : Nat → List ActOutcome → List Ev × Option Nat
  | _, [] => ([], none)
  | i, a :: rest =>
    if a = ActOutcome.throwsSync then
      ([Ev.call i el d], some i)
    else
      let r := defaultLoop el d (i + 1) rest
      (Ev.call i el d :: r.1, r.2)

/-- `EventDefault.invoke(triggerElement, triggerData)` from
`src/fix/events/event-default.ts`: if the action list is empty, only log and
return; otherwise run the synchronous fire-and-forget loop over the action
list. -/
def EventDefault.invoke (el : Nat) (d : TriggerData) (acts : List ActOutcome) :
    List Ev × Option Nat :=
  if acts.length = 0 then ([], none)
  else defaultLoop el d 0 acts

/-- The `for` loop of `EventSequential.invoke` (FIX-SEQUENTIAL.md): for each
index, call `trigger(element, data)` on the action, await its settlement
inside a `try`/`catch` that logs failures and continues, then proceed to the
next index. Both a rejection and a synchronous throw are caught as a failed
settlement of that step. -/
def seqLoop (el : Nat) (d : TriggerData) : Nat → List ActOutcome → List Ev
  | _, [] => []
  | i, a :: rest =>
    Ev.call i el d :: Ev.settle i (a == ActOutcome.resolves) :: seqLoop el d (i + 1) rest

/-- `EventSequential.invoke(triggerElement, triggerData)` from
FIX-SEQUENTIAL.md: if the action list is empty, only log and return;
otherwise run the awaited per-index loop; the invocation completes after the
last settlement. -/
def EventSequential.invoke (el : Nat) (d : TriggerData) (acts : List ActOutcome) : List Ev :=
  if acts.length = 0 then [] else seqLoop el d 0 acts

theorem getEvent_registerEvent (evs : List (Str × Handler)) (n : Str) (h : Handler) (m : Str) :
    getEvent (registerEvent evs n h) m = if m = n then some h else getEvent evs m := by
  induction evs with
  | nil =>
    simp only [registerEvent, getEvent]
    by_cases hmn : m = n
    · simp [hmn]
    · have hnm : ¬ n = m := fun hc => hmn hc.symm
      simp [hmn, hnm]
  | cons p rest ih =>
    simp only [registerEvent]
    by_cases hpn : p.1 = n
    · simp only [hpn, if_pos rfl, getEvent]
      by_cases hmn : m = n
      · simp [hmn]
      · have hnm : ¬ n = m := fun hc => hmn hc.symm
        simp [hmn, hnm, hpn]
    · simp only [if_neg hpn, getEvent]
      by_cases hpm : p.1 = m
      · have hmn : ¬ m = n := fun hc => hpn (hc ▸ hpm)
        simp [hpm, hmn]
      · simp [hpm, ih]

theorem hasEvent_registerEvent (evs : List (Str × Handler)) (n : Str) (h : Handler) (m : Str) :
    hasEvent (registerEvent evs n h) m = if m = n then true else hasEvent evs m := by
  by_cases hmn : m = n <;> simp [hasEvent, getEvent_registerEvent, hmn]

theorem hasEvent_ensureEvent (evs : List (Str × Handler)) (n m : Str) :
    hasEvent (ensureEvent evs n) m = if m = n then true else hasEvent evs m := by
  unfold ensureEvent
  by_cases hev : hasEvent evs n
  · by_cases hmn : m = n <;> simp [hev, hmn]
  · simp only [hev, Bool.not_false, if_pos]
    exact hasEvent_registerEvent evs n _ m

theorem actsAt_ensureEvent (evs : List (Str × Handler)) (n m : Str) :
    actsAt (ensureEvent evs n) m = actsAt evs m := by
  unfold ensureEvent
  by_cases hev : hasEvent evs n
  · simp [hev]
  · simp only [hev, Bool.not_false, if_pos]
    unfold actsAt
    rw [getEvent_registerEvent]
    by_cases hmn : m = n
    · subst hmn
      have : getEvent evs m = none := by
        cases hg : getEvent evs m with
        | none => rfl
        | some h => rw [hasEvent, hg] at hev; simp at hev
      simp [this]
    · simp [hmn]

theorem getEvent_registerActionAt (evs : List (Str × Handler)) (n : Str) (i : ActionInst)
    (m : Str) :
    getEvent (registerActionAt evs n i) m =
      if m = n then
        (getEvent evs m).map (fun h => { h with actions := h.actions ++ [i] })
      else getEvent evs m := by
  induction evs with
  | nil => by_cases hmn : m = n <;> simp [registerActionAt, getEvent, hmn]
  | cons p rest ih =>
    simp only [registerActionAt, List.map_cons]
    by_cases hpn : p.1 = n
    · simp only [if_pos hpn]
      by_cases hpm : p.1 = m
      · have hmn : m = n := hpm ▸ hpn
        simp [getEvent, hpm, hmn]
      · have hmn : ¬ p.1 = m := hpm
        simp only [getEvent, if_neg hmn]
        have := ih
        simp only [registerActionAt] at this
        exact this
    · simp only [if_neg hpn]
      by_cases hpm : p.1 = m
      · have hmn : ¬ m = n := fun hc => hpn (by rw [hpm, hc])
        simp [getEvent, hpm, hmn]
      · simp only [getEvent, if_neg hpm]
        have := ih
        simp only [registerActionAt] at this
        exact this

theorem hasEvent_registerActionAt (evs : List (Str × Handler)) (n : Str) (i : ActionInst)
    (m : Str) :
    hasEvent (registerActionAt evs n i) m = hasEvent evs m := by
  rw [hasEvent, getEvent_registerActionAt]
  by_cases hmn : m = n
  · simp [hmn, hasEvent]
  · simp [hmn, hasEvent]

theorem actsAt_registerActionAt_self (evs : List (Str × Handler)) (n : Str) (i : ActionInst)
    (h : hasEvent evs n = true) :
    actsAt (registerActionAt evs n i) n = actsAt evs n ++ [i] := by
  unfold actsAt
  rw [getEvent_registerActionAt]
  cases hg : getEvent evs n with
  | none => rw [hasEvent, hg] at h; simp at h
  | some hd => simp

theorem actsAt_registerActionAt_other (evs : List (Str × Handler)) (n : Str) (i : ActionInst)
    (m : Str) (h : m ≠ n) :
    actsAt (registerActionAt evs n i) m = actsAt evs m := by
  unfold actsAt
  rw [getEvent_registerActionAt, if_neg h]

theorem processTrigger_actsAt (reg : FIXRegistry) (st : FIXState) (b : Binding) (m : Str) :
    actsAt (processTrigger reg st b).events m = actsAt st.events m := by
  by_cases h : recognizedT reg b <;> simp [processTrigger, h, actsAt_ensureEvent]

theorem processTrigger_hasEvent (reg : FIXRegistry) (st : FIXState) (b : Binding) (m : Str) :
    hasEvent (processTrigger reg st b).events m
      = (hasEvent st.events m || (recognizedT reg b && decide (b.eventName = m))) := by
  by_cases h : recognizedT reg b
  · simp only [processTrigger, h, if_true, Bool.true_and]
    rw [hasEvent_ensureEvent]
    by_cases hm : m = b.eventName
    · simp [hm]
    · have : ¬ b.eventName = m := fun hc => hm hc.symm
      simp [hm, this]
  · simp [processTrigger, h]

theorem processTrigger_triggerInits (reg : FIXRegistry) (st : FIXState) (b : Binding) :
    (processTrigger reg st b).triggerInits
      = st.triggerInits ++ (if recognizedT reg b then [mkTriggerInst b] else []) := by
  by_cases h : recognizedT reg b <;> simp [processTrigger, h]

theorem processTrigger_actionInits (reg : FIXRegistry) (st : FIXState) (b : Binding) :
    (processTrigger reg st b).actionInits = st.actionInits := by
  by_cases h : recognizedT reg b <;> simp [processTrigger, h]

theorem processTrigger_trace (reg : FIXRegistry) (st : FIXState) (b : Binding) :
    (processTrigger reg st b).trace
      = st.trace ++ (if recognizedT reg b then [InitEv.triggerInit (mkTriggerInst b)] else []) := by
  by_cases h : recognizedT reg b <;> simp [processTrigger, h]

theorem processTrigger_diagnostics (reg : FIXRegistry) (st : FIXState) (b : Binding) :
    (processTrigger reg st b).diagnostics
      = st.diagnostics
        ++ (if recognizedT reg b then []
            else [str "Unknown trigger type: " ++ triggerTypeOf b.attrName]) := by
  by_cases h : recognizedT reg b <;> simp [processTrigger, h]

theorem processAction_events (reg : FIXRegistry) (st : FIXState) (b : Binding)
    (h : recognizedA reg b = true) :
    (processAction reg st b).events
      = registerActionAt (ensureEvent st.events b.eventName) b.eventName (mkActionInst b) := by
  have hev : hasEvent (ensureEvent st.events b.eventName) b.eventName = true := by
    rw [hasEvent_ensureEvent]; simp
  rw [hasEvent] at hev
  cases hg : getEvent (ensureEvent st.events b.eventName) b.eventName with
  | none => rw [hg] at hev; simp at hev
  | some hd => simp [processAction, h, hg]

theorem processAction_actsAt (reg : FIXRegistry) (st : FIXState) (b : Binding) (m : Str) :
    actsAt (processAction reg st b).events m
      = if recognizedA reg b = true ∧ m = b.eventName
        then actsAt st.events m ++ [mkActionInst b]
        else actsAt st.events m := by
  by_cases h : recognizedA reg b
  · rw [processAction_events reg st b h]
    by_cases hm : m = b.eventName
    · subst hm
      rw [actsAt_registerActionAt_self _ _ _ (by rw [hasEvent_ensureEvent]; simp),
        actsAt_ensureEvent]
      simp [h]
    · rw [actsAt_registerActionAt_other _ _ _ _ hm, actsAt_ensureEvent]
      simp [hm]
  · simp only [processAction, h]
    simp [h]

theorem processAction_hasEvent (reg : FIXRegistry) (st : FIXState) (b : Binding) (m : Str) :
    hasEvent (processAction reg st b).events m
      = (hasEvent st.events m || (recognizedA reg b && decide (b.eventName = m))) := by
  by_cases h : recognizedA reg b
  · rw [processAction_events reg st b h, hasEvent_registerActionAt, hasEvent_ensureEvent]
    by_cases hm : m = b.eventName
    · simp [hm, h]
    · have : ¬ b.eventName = m := fun hc => hm hc.symm
      simp [hm, this]
  · simp [processAction, h]

theorem processAction_actionInits (reg : FIXRegistry) (st : FIXState) (b : Binding) :
    (processAction reg st b).actionInits
      = st.actionInits ++ (if recognizedA reg b then [mkActionInst b] else []) := by
  by_cases h : recognizedA reg b <;> simp [processAction, h]

theorem processAction_triggerInits (reg : FIXRegistry) (st : FIXState) (b : Binding) :
    (processAction reg st b).triggerInits = st.triggerInits := by
  by_cases h : recognizedA reg b <;> simp [processAction, h]

theorem processAction_trace (reg : FIXRegistry) (st : FIXState) (b : Binding) :
    (processAction reg st b).trace
      = st.trace ++ (if recognizedA reg b then [InitEv.actionInit (mkActionInst b)] else []) := by
  by_cases h : recognizedA reg b <;> simp [processAction, h]

theorem processAction_diagnostics (reg : FIXRegistry) (st : FIXState) (b : Binding) :
    (processAction reg st b).diagnostics
      = st.diagnostics
        ++ (if recognizedA reg b then []
            else [str "Unknown action type: " ++ triggerTypeOf b.attrName]) := by
  by_cases h : recognizedA reg b <;> simp [processAction, h]

theorem foldTriggers_actsAt (reg : FIXRegistry) :
    ∀ (bs : List Binding) (st : FIXState) (m : Str),
      actsAt ((bs.foldl (processTrigger reg) st).events) m = actsAt st.events m := by
  intro bs
  induction bs with
  | nil => intro st m; rfl
  | cons b rest ih =>
    intro st m
    rw [List.foldl_cons, ih, processTrigger_actsAt]

theorem foldTriggers_hasEvent (reg : FIXRegistry) :
    ∀ (bs : List Binding) (st : FIXState) (m : Str),
      hasEvent ((bs.foldl (processTrigger reg) st).events) m
        = (hasEvent st.events m
            || bs.any (fun b => recognizedT reg b && decide (b.eventName = m))) := by
  intro bs
  induction bs with
  | nil => intro st m; simp
  | cons b rest ih =>
    intro st m
    rw [List.foldl_cons, ih, processTrigger_hasEvent]
    simp [Bool.or_assoc]

theorem foldTriggers_triggerInits (reg : FIXRegistry) :
    ∀ (bs : List Binding) (st : FIXState),
      (bs.foldl (processTrigger reg) st).triggerInits
        = st.triggerInits ++ (bs.filter (fun b => recognizedT reg b)).map mkTriggerInst := by
  intro bs
  induction bs with
  | nil => intro st; simp
  | cons b rest ih =>
    intro st
    rw [List.foldl_cons, ih, processTrigger_triggerInits]
    by_cases h : recognizedT reg b <;> simp [h, List.filter_cons]

theorem foldTriggers_actionInits (reg : FIXRegistry) :
    ∀ (bs : List Binding) (st : FIXState),
      (bs.foldl (processTrigger reg) st).actionInits = st.actionInits := by
  intro bs
  induction bs with
  | nil => intro st; rfl
  | cons b rest ih =>
    intro st
    rw [List.foldl_cons, ih, processTrigger_actionInits]

theorem foldTriggers_trace (reg : FIXRegistry) :
    ∀ (bs : List Binding) (st : FIXState),
      (bs.foldl (processTrigger reg) st).trace
        = st.trace
          ++ (bs.filter (fun b => recognizedT reg b)).map
              (fun b => InitEv.triggerInit (mkTriggerInst b)) := by
  intro bs
  induction bs with
  | nil => intro st; simp
  | cons b rest ih =>
    intro st
    rw [List.foldl_cons, ih, processTrigger_trace]
    by_cases h : recognizedT reg b <;> simp [h, List.filter_cons]

theorem foldTriggers_diagnostics (reg : FIXRegistry) :
    ∀ (bs : List Binding) (st : FIXState),
      (bs.foldl (processTrigger reg) st).diagnostics
        = st.diagnostics
          ++ (bs.filter (fun b => !recognizedT reg b)).map
              (fun b => str "Unknown trigger type: " ++ triggerTypeOf b.attrName) := by
  intro bs
  induction bs with
  | nil => intro st; simp
  | cons b rest ih =>
    intro st
    rw [List.foldl_cons, ih, processTrigger_diagnostics]
    by_cases h : recognizedT reg b <;> simp [h, List.filter_cons]

theorem foldActions_actsAt (reg : FIXRegistry) :
    ∀ (bs : List Binding) (st : FIXState) (m : Str),
      actsAt ((bs.foldl (processAction reg) st).events) m
        = actsAt st.events m
          ++ ((bs.filter (fun b => recognizedA reg b && decide (b.eventName = m))).map
              mkActionInst) := by
  intro bs
  induction bs with
  | nil => intro st m; simp
  | cons b rest ih =>
    intro st m
    rw [List.foldl_cons, ih, processAction_actsAt]
    by_cases h : recognizedA reg b
    · by_cases hm : m = b.eventName
      · have : decide (b.eventName = m) = true := by simp [hm]
        simp [h, hm, this, List.filter_cons]
      · have : ¬ b.eventName = m := fun hc => hm hc.symm
        simp [h, hm, this, List.filter_cons]
    · simp [h, List.filter_cons]

theorem foldActions_hasEvent (reg : FIXRegistry) :
    ∀ (bs : List Binding) (st : FIXState) (m : Str),
      hasEvent ((bs.foldl (processAction reg) st).events) m
        = (hasEvent st.events m
            || bs.any (fun b => recognizedA reg b && decide (b.eventName = m))) := by
  intro bs
  induction bs with
  | nil => intro st m; simp
  | cons b rest ih =>
    intro st m
    rw [List.foldl_cons, ih, processAction_hasEvent]
    simp [Bool.or_assoc]

theorem foldActions_actionInits (reg : FIXRegistry) :
    ∀ (bs : List Binding) (st : FIXState),
      (bs.foldl (processAction reg) st).actionInits
        = st.actionInits ++ (bs.filter (fun b => recognizedA reg b)).map mkActionInst := by
  intro bs
  induction bs with
  | nil => intro st; simp
  | cons b rest ih =>
    intro st
    rw [List.foldl_cons, ih, processAction_actionInits]
    by_cases h : recognizedA reg b <;> simp [h, List.filter_cons]

theorem foldActions_triggerInits (reg : FIXRegistry) :
    ∀ (bs : List Binding) (st : FIXState),
      (bs.foldl (processAction reg) st).triggerInits = st.triggerInits := by
  intro bs
  induction bs with
  | nil => intro st; rfl
  | cons b rest ih =>
    intro st
    rw [List.foldl_cons, ih, processAction_triggerInits]

theorem foldActions_trace (reg : FIXRegistry) :
    ∀ (bs : List Binding) (st : FIXState),
      (bs.foldl (processAction reg) st).trace
        = st.trace
          ++ (bs.filter (fun b => recognizedA reg b)).map
              (fun b => InitEv.actionInit (mkActionInst b)) := by
  intro bs
  induction bs with
  | nil => intro st; simp
  | cons b rest ih =>
    intro st
    rw [List.foldl_cons, ih, processAction_trace]
    by_cases h : recognizedA reg b <;> simp [h, List.filter_cons]

theorem foldActions_diagnostics (reg : FIXRegistry) :
    ∀ (bs : List Binding) (st : FIXState),
      (bs.foldl (processAction reg) st).diagnostics
        = st.diagnostics
          ++ (bs.filter (fun b => !recognizedA reg b)).map
              (fun b => str "Unknown action type: " ++ triggerTypeOf b.attrName) := by
  intro bs
  induction bs with
  | nil => intro st; simp
  | cons b rest ih =>
    intro st
    rw [List.foldl_cons, ih, processAction_diagnostics]
    by_cases h : recognizedA reg b <;> simp [h, List.filter_cons]

theorem defaultLoop_no_throw (el : Nat) (d : TriggerData) :
    ∀ (acts : List ActOutcome) (k : Nat),
      (∀ a ∈ acts, a ≠ ActOutcome.throwsSync) →
      defaultLoop el d k acts
        = ((List.range acts.length).map (fun i => Ev.call (k + i) el d), none) := by
  intro acts
  induction acts with
  | nil => intro k _; simp [defaultLoop]
  | cons a rest ih =>
    intro k h
    have ha : ¬ a = ActOutcome.throwsSync := h a (by simp)
    have hr := ih (k + 1) (fun x hx => h x (by simp [hx]))
    simp only [defaultLoop, if_neg ha, hr, List.length_cons, List.range_succ_eq_map,
      List.map_cons, List.map_map]
    refine Prod.ext ?_ rfl
    simp only [Nat.add_zero]
    refine congrArg (Ev.call k el d :: ·) ?_
    refine List.map_congr_left ?_
    intro i _
    simp [Function.comp, Nat.succ_eq_add_one]
    omega

theorem seqLoop_length (el : Nat) (d : TriggerData) :
    ∀ (acts : List ActOutcome) (k : Nat), (seqLoop el d k acts).length = 2 * acts.length := by
  intro acts
  induction acts with
  | nil => intro k; simp [seqLoop]
  | cons a rest ih =>
    intro k
    simp only [seqLoop, List.length_cons, ih]
    omega

theorem seqLoop_getElem_even (el : Nat) (d : TriggerData) :
    ∀ (acts : List ActOutcome) (k i : Nat),
      (seqLoop el d k acts)[2 * i]? = (acts[i]?).map (fun _ => Ev.call (k + i) el d) := by
  intro acts
  induction acts with
  | nil => intro k i; simp [seqLoop]
  | cons a rest ih =>
    intro k i
    cases i with
    | zero => simp [seqLoop]
    | succ j =>
      have h2 : 2 * (j + 1) = 2 * j + 1 + 1 := by omega
      simp only [seqLoop, h2, List.getElem?_cons_succ, ih (k + 1) j]
      have : k + 1 + j = k + (j + 1) := by omega
      rw [this]

theorem seqLoop_getElem_odd (el : Nat) (d : TriggerData) :
    ∀ (acts : List ActOutcome) (k i : Nat),
      (seqLoop el d k acts)[2 * i + 1]?
        = (acts[i]?).map (fun a => Ev.settle (k + i) (a == ActOutcome.resolves)) := by
  intro acts
  induction acts with
  | nil => intro k i; simp [seqLoop]
  | cons a rest ih =>
    intro k i
    cases i with
    | zero => simp [seqLoop]
    | succ j =>
      have h2 : 2 * (j + 1) + 1 = 2 * j + 1 + 1 + 1 := by omega
      simp only [seqLoop, h2, List.getElem?_cons_succ, ih (k + 1) j]
      have : k + 1 + j = k + (j + 1) := by omega
      rw [this]

theorem callsOf_seqLoop (el : Nat) (d : TriggerData) :
    ∀ (acts : List ActOutcome) (k : Nat),
      callsOf (seqLoop el d k acts) = (List.range acts.length).map (k + ·) := by
  intro acts
  induction acts with
  | nil => intro k; simp [seqLoop, callsOf]
  | cons a rest ih =>
    intro k
    have ih2 := ih (k + 1)
    simp only [callsOf] at ih2 ⊢
    simp only [seqLoop, List.filterMap_cons, List.length_cons,
      List.range_succ_eq_map, List.map_cons, List.map_map, ih2]
    refine congrArg₂ (· :: ·) (by omega) ?_
    refine List.map_congr_left ?_
    intro i _
    simp [Function.comp, Nat.succ_eq_add_one]
    omega

theorem callsOf_map_call (el : Nat) (d : TriggerData) (ns : List Nat) :
    callsOf (ns.map (fun i => Ev.call i el d)) = ns := by
  induction ns with
  | nil => rfl
  | cons n rest ih => simp only [List.map_cons, callsOf, List.filterMap_cons] at ih ⊢; simp [ih]

theorem defaultLoop_first_throw (el : Nat) (d : TriggerData) :
    ∀ (acts : List ActOutcome) (k i : Nat),
      acts[i]? = some ActOutcome.throwsSync →
      (∀ j, j < i → acts[j]? ≠ some ActOutcome.throwsSync) →
      defaultLoop el d k acts
        = ((List.range (i + 1)).map (fun j => Ev.call (k + j) el d), some (k + i)) := by
  intro acts
  induction acts with
  | nil => intro k i h _; simp at h
  | cons a rest ih =>
    intro k i h hfirst
    by_cases ha : a = ActOutcome.throwsSync
    · cases i with
      | zero => simp [defaultLoop, ha, List.range_succ_eq_map]
      | succ j =>
        exact absurd (by simp [ha]) (hfirst 0 (Nat.succ_pos j))
    · cases i with
      | zero => rw [List.getElem?_cons_zero] at h; exact absurd (Option.some_inj.mp h) ha
      | succ j =>
        have hr := ih (k + 1) j (by simpa using h)
          (fun j2 hj2 => by
            have := hfirst (j2 + 1) (by omega)
            simpa using this)
        simp only [defaultLoop, if_neg ha, hr]
        refine Prod.ext ?_ (by simp; omega)
        simp only [List.range_succ_eq_map, List.map_cons, List.map_map, Nat.add_zero]
        refine congrArg (Ev.call k el d :: ·) ?_
        refine congrArg₂ (· :: ·) (by simp) ?_
        refine List.map_congr_left ?_
        intro x _
        simp [Function.comp, Nat.succ_eq_add_one]
        omega

theorem splitColon_ne_nil : ∀ s : Str, splitColon s ≠ [] := by
  intro s
  induction s with
  | nil => simp [splitColon]
  | cons c rest ih =>
    by_cases hc : c = ':'
    · simp [splitColon, hc]
    · simp only [splitColon, if_neg hc]
      cases hs : splitColon rest with
      | nil => simp
      | cons g gs => simp

theorem splitColon_no_colon : ∀ s : Str, ':' ∉ s → splitColon s = [s] := by
  intro s
  induction s with
  | nil => intro _; rfl
  | cons c rest ih =>
    intro h
    have hc : ¬ c = ':' := fun hc => h (by simp [hc])
    have hr : splitColon rest = [rest] := ih (fun hm => h (by simp [hm]))
    simp [splitColon, if_neg hc, hr]

theorem splitColon_append_colon :
    ∀ a b : Str, ':' ∉ a → splitColon (a ++ ':' :: b) = a :: splitColon b := by
  intro a
  induction a with
  | nil => intro b _; simp [splitColon]
  | cons c a2 ih =>
    intro b h
    have hc : ¬ c = ':' := fun hc => h (by simp [hc])
    have hr := ih b (fun hm => h (by simp [hm]))
    simp [splitColon, if_neg hc, hr]

/-- Joining colon-separated segments back into an attribute name (the
left inverse of the split used by the scanner, for stating the corrected
classification law). -/
def joinColon : List Str → Str
  | [] => []
  | [s] => s
  | s :: rest => s ++ ':' :: joinColon rest

theorem splitColon_joinColon :
    ∀ gs : List Str, gs ≠ [] → (∀ g ∈ gs, ':' ∉ g) → splitColon (joinColon gs) = gs := by
  intro gs
  induction gs with
  | nil => intro h _; exact absurd rfl h
  | cons g rest ih =>
    intro _ h
    cases rest with
    | nil => exact splitColon_no_colon g (h g (by simp))
    | cons g2 rest2 =>
      have hj : joinColon (g :: g2 :: rest2) = g ++ ':' :: joinColon (g2 :: rest2) := rfl
      rw [hj, splitColon_append_colon _ _ (h g (by simp)),
        ih (by simp) (fun x hx => h x (by simp [hx]))]

/-- C1: under the parallel (default) handler, an empty action list means
`invoke` performs no action calls (log only) and returns; otherwise, when no
action throws synchronously, `invoke` issues `trigger(element, data)` to
every registered action in registration order in one synchronous loop,
awaits nothing (the emitted events contain no settlement), and returns
normally as soon as the last call has been issued. -/
theorem eventDefault_parallel_invoke (el : Nat) (d : TriggerData) (acts : List ActOutcome) :
    (acts = [] → EventDefault.invoke el d acts = ([], none))
    ∧ ((∀ a ∈ acts, a ≠ ActOutcome.throwsSync) →
        EventDefault.invoke el d acts
          = ((List.range acts.length).map (fun i => Ev.call i el d), none)) := by
  constructor
  · intro h; subst h; rfl
  · intro h
    unfold EventDefault.invoke
    by_cases hl : acts.length = 0
    · have hnil : acts = [] := List.length_eq_zero.mp hl
      subst hnil; simp
    · rw [if_neg hl, defaultLoop_no_throw el d acts 0 h]
      simp

/-- Witness for C1 at a concrete two-action list. -/
theorem eventDefault_parallel_invoke_witness :
    (∀ a ∈ [ActOutcome.resolves, ActOutcome.rejects], a ≠ ActOutcome.throwsSync)
    ∧ EventDefault.invoke 7 [] [ActOutcome.resolves, ActOutcome.rejects]
        = ([Ev.call 0 7 [], Ev.call 1 7 []], none)
    ∧ EventDefault.invoke 7 [] [] = ([], none) := by
  refine ⟨by decide, ?_, (eventDefault_parallel_invoke 7 [] []).1 rfl⟩
  have h := (eventDefault_parallel_invoke 7 [] [ActOutcome.resolves, ActOutcome.rejects]).2
    (by decide)
  exact h.trans (by decide)

/-- C2: the sequential handler visits actions in index order; the call to
action i sits at position 2i of the invocation events and its settlement at
position 2i+1, so action i is fully settled before action i+1 is called;
the event list has length 2n and its final element is the settlement of the
last action, so the invocation completes only after the last action
settles. -/
theorem eventSequential_invoke_ordering (el : Nat) (d : TriggerData)
    (acts : List ActOutcome) (i : Nat) :
    (EventSequential.invoke el d acts).length = 2 * acts.length
    ∧ (EventSequential.invoke el d acts)[2 * i]? = (acts[i]?).map (fun _ => Ev.call i el d)
    ∧ (EventSequential.invoke el d acts)[2 * i + 1]?
        = (acts[i]?).map (fun a => Ev.settle i (a == ActOutcome.resolves))
    ∧ (EventSequential.invoke el d acts).getLast?
        = (acts.getLast?).map
            (fun a => Ev.settle (acts.length - 1) (a == ActOutcome.resolves)) := by
  unfold EventSequential.invoke
  by_cases hl : acts.length = 0
  · have hnil : acts = [] := List.length_eq_zero.mp hl
    subst hnil; simp
  · rw [if_neg hl]
    refine ⟨seqLoop_length el d acts 0, ?_, ?_, ?_⟩
    · rw [seqLoop_getElem_even el d acts 0 i]; simp
    · rw [seqLoop_getElem_odd el d acts 0 i]; simp
    · rw [List.getLast?_eq_getElem?, seqLoop_length el d acts 0]
      have h2 : 2 * acts.length - 1 = 2 * (acts.length - 1) + 1 := by omega
      rw [h2, seqLoop_getElem_odd el d acts 0 (acts.length - 1),
        List.getLast?_eq_getElem?]
      simp

/-- C3: under the sequential handler every action is called regardless of
how earlier actions settle — the list of called indices is always the full
range, and each action that rejects or throws contributes a failed
settlement event (caught and logged) rather than aborting the remaining
sequence. -/
theorem eventSequential_failure_containment (el : Nat) (d : TriggerData)
    (acts : List ActOutcome) :
    callsOf (EventSequential.invoke el d acts) = List.range acts.length
    ∧ ∀ i a, acts[i]? = some a → a ≠ ActOutcome.resolves →
        Ev.settle i false ∈ EventSequential.invoke el d acts := by
  constructor
  · unfold EventSequential.invoke
    by_cases hl : acts.length = 0
    · have hnil : acts = [] := List.length_eq_zero.mp hl
      subst hnil; simp [callsOf]
    · rw [if_neg hl, callsOf_seqLoop el d acts 0]
      simp
  · intro i a hia hne
    have hlen : acts.length ≠ 0 := by
      intro h0
      have hnil : acts = [] := List.length_eq_zero.mp h0
      subst hnil; simp at hia
    have hodd : (EventSequential.invoke el d acts)[2 * i + 1]?
        = some (Ev.settle i (a == ActOutcome.resolves)) := by
      unfold EventSequential.invoke
      rw [if_neg hlen, seqLoop_getElem_odd el d acts 0 i, hia]
      simp
    have hbeq : (a == ActOutcome.resolves) = false := by
      cases a <;> simp_all
    rw [hbeq] at hodd
    exact List.getElem?_mem hodd

/-- Witness for C3: with a first action that rejects, the second action is
still called and the failure is recorded as a failed settlement. -/
theorem eventSequential_failure_containment_witness :
    callsOf (EventSequential.invoke 3 [] [ActOutcome.rejects, ActOutcome.resolves]) = [0, 1]
    ∧ Ev.settle 0 false ∈ EventSequential.invoke 3 [] [ActOutcome.rejects, ActOutcome.resolves] := by
  constructor
  · exact (eventSequential_failure_containment 3 [] [ActOutcome.rejects, ActOutcome.resolves]).1.trans
      (by decide)
  · exact (eventSequential_failure_containment 3 [] [ActOutcome.rejects, ActOutcome.resolves]).2
      0 ActOutcome.rejects (by decide) (by decide)

/-- C10: under the parallel (default) handler, if the action at index i is
the first to throw synchronously, the exception propagates out of `invoke`
(the returned failure is that index) and only the actions up to and
including i are ever called — the loop has no per-step catch, so every
action after the throwing one is skipped for that invocation. -/
theorem eventDefault_sync_throw (el : Nat) (d : TriggerData) (acts : List ActOutcome)
    (i : Nat) (hthrow : acts[i]? = some ActOutcome.throwsSync)
    (hfirst : ∀ j, j < i → acts[j]? ≠ some ActOutcome.throwsSync) :
    (EventDefault.invoke el d acts).2 = some i
    ∧ callsOf (EventDefault.invoke el d acts).1 = List.range (i + 1) := by
  have hlen : acts.length ≠ 0 := by
    intro h0
    have hnil : acts = [] := List.length_eq_zero.mp h0
    subst hnil; simp at hthrow
  unfold EventDefault.invoke
  rw [if_neg hlen, defaultLoop_first_throw el d acts 0 i hthrow hfirst]
  constructor
  · simp
  · simp only [Nat.zero_add]
    exact callsOf_map_call el d (List.range (i + 1))

/-- Witness for C10 at a concrete list whose middle action throws. -/
theorem eventDefault_sync_throw_witness :
    ([ActOutcome.resolves, ActOutcome.throwsSync, ActOutcome.resolves][1]?
        = some ActOutcome.throwsSync)
    ∧ (EventDefault.invoke 2 []
        [ActOutcome.resolves, ActOutcome.throwsSync, ActOutcome.resolves]).2 = some 1
    ∧ callsOf (EventDefault.invoke 2 []
        [ActOutcome.resolves, ActOutcome.throwsSync, ActOutcome.resolves]).1 = [0, 1] := by
  have h := eventDefault_sync_throw 2 []
    [ActOutcome.resolves, ActOutcome.throwsSync, ActOutcome.resolves] 1
    (by decide) (by decide)
  exact ⟨by decide, h.1, h.2.trans (by decide)⟩

theorem ensureEvent_of_hasEvent (evs : List (Str × Handler)) (n : Str)
    (h : hasEvent evs n = true) : ensureEvent evs n = evs := by
  unfold ensureEvent
  rw [h]
  rfl

theorem ensureEvent_of_not_hasEvent (evs : List (Str × Handler)) (n : Str)
    (h : hasEvent evs n = false) :
    ensureEvent evs n = registerEvent evs n ⟨n, HandlerKind.default, []⟩ := by
  unfold ensureEvent
  rw [h]
  rfl

/-- C5: `ensureEvent` is idempotent — when the name is absent it creates and
registers a default parallel handler with an empty action list; when the
name is present (in particular on a second call for the same name) it
returns the registry unchanged, neither replacing the handler nor clearing
its action list. -/
theorem ensureEvent_idempotent (evs : List (Str × Handler)) (name : Str) :
    ensureEvent (ensureEvent evs name) name = ensureEvent evs name
    ∧ (hasEvent evs name = false →
        getEvent (ensureEvent evs name) name = some ⟨name, HandlerKind.default, []⟩)
    ∧ (hasEvent evs name = true → ensureEvent evs name = evs) := by
  refine ⟨?_, ?_, ?_⟩
  · apply ensureEvent_of_hasEvent
    rw [hasEvent_ensureEvent]
    simp
  · intro h
    rw [ensureEvent_of_not_hasEvent evs name h, getEvent_registerEvent]
    simp
  · exact ensureEvent_of_hasEvent evs name

/-- Witness for C5: creation on an empty registry, idempotence, and
no-op on a registry already holding a handler with a registered action. -/
theorem ensureEvent_idempotent_witness :
    getEvent (ensureEvent [] (str "e2")) (str "e2")
        = some ⟨str "e2", HandlerKind.default, []⟩
    ∧ ensureEvent (ensureEvent [] (str "e2")) (str "e2") = ensureEvent [] (str "e2")
    ∧ ensureEvent [(str "e2", ⟨str "e2", HandlerKind.default, [⟨none, str "action:click"⟩]⟩)]
        (str "e2")
        = [(str "e2", ⟨str "e2", HandlerKind.default, [⟨none, str "action:click"⟩]⟩)] :=
  ⟨(ensureEvent_idempotent [] (str "e2")).2.1 (by decide),
   (ensureEvent_idempotent [] (str "e2")).1,
   (ensureEvent_idempotent
      [(str "e2", ⟨str "e2", HandlerKind.default, [⟨none, str "action:click"⟩]⟩)]
      (str "e2")).2.2 (by decide)⟩

theorem mem_keys_registerEvent :
    ∀ (evs : List (Str × Handler)) (n : Str) (h : Handler) (m : Str),
      (m ∈ (registerEvent evs n h).map Prod.fst) ↔ (m ∈ evs.map Prod.fst ∨ m = n) := by
  intro evs
  induction evs with
  | nil => intro n h m; simp [registerEvent]
  | cons p rest ih =>
    intro n h m
    by_cases hp : p.1 = n
    · simp only [registerEvent, hp, if_true, eq_self_iff_true, List.map_cons, List.mem_cons]
      tauto
    · simp only [registerEvent, if_neg hp, List.map_cons, List.mem_cons, ih]
      tauto

theorem registerEvent_keys_nodup :
    ∀ (evs : List (Str × Handler)) (n : Str) (h : Handler),
      (evs.map Prod.fst).Nodup → ((registerEvent evs n h).map Prod.fst).Nodup := by
  intro evs
  induction evs with
  | nil => intro n h _; simp [registerEvent]
  | cons p rest ih =>
    intro n h hnd
    simp only [List.map_cons, List.nodup_cons] at hnd
    by_cases hp : p.1 = n
    · simp only [registerEvent, if_pos hp, List.map_cons, List.nodup_cons]
      exact ⟨by rw [← hp]; exact hnd.1, hnd.2⟩
    · simp only [registerEvent, if_neg hp, List.map_cons, List.nodup_cons]
      refine ⟨?_, ih n h hnd.2⟩
      rw [mem_keys_registerEvent]
      rintro (hmem | heq)
      · exact hnd.1 hmem
      · exact hp heq

/-- C8: the Event Registry maps a name to at most one handler at a time
(registration preserves key uniqueness) and `registerEvent` unconditionally
replaces any prior handler under the name: afterwards the lookup yields the
new handler, whose action list is exactly the new handler's own list (the
old handler's registered actions are not merged and are no longer reachable
under the name); other names are untouched. -/
theorem registerEvent_overwrites (evs : List (Str × Handler)) (n : Str) (h : Handler) :
    getEvent (registerEvent evs n h) n = some h
    ∧ actsAt (registerEvent evs n h) n = h.actions
    ∧ (∀ m, m ≠ n → getEvent (registerEvent evs n h) m = getEvent evs m)
    ∧ ((evs.map Prod.fst).Nodup → ((registerEvent evs n h).map Prod.fst).Nodup) := by
  refine ⟨?_, ?_, ?_, ?_⟩
  · rw [getEvent_registerEvent]; simp
  · unfold actsAt
    rw [getEvent_registerEvent]
    simp
  · intro m hm
    rw [getEvent_registerEvent, if_neg hm]
  · exact registerEvent_keys_nodup evs n h

/-- Witness for C8: replacing a handler that owns one action with a fresh
sequential handler drops the old action list. -/
theorem registerEvent_overwrites_witness :
    getEvent (registerEvent
        [(str "e2", ⟨str "e2", HandlerKind.default, [⟨none, str "action:click"⟩]⟩)]
        (str "e2") ⟨str "e2", HandlerKind.sequential, []⟩) (str "e2")
      = some ⟨str "e2", HandlerKind.sequential, []⟩
    ∧ actsAt (registerEvent
        [(str "e2", ⟨str "e2", HandlerKind.default, [⟨none, str "action:click"⟩]⟩)]
        (str "e2") ⟨str "e2", HandlerKind.sequential, []⟩) (str "e2") = []
    ∧ ((registerEvent
        [(str "e2", ⟨str "e2", HandlerKind.default, [⟨none, str "action:click"⟩]⟩)]
        (str "e2") ⟨str "e2", HandlerKind.sequential, []⟩).map Prod.fst).Nodup := by
  have h := registerEvent_overwrites
    [(str "e2", ⟨str "e2", HandlerKind.default, [⟨none, str "action:click"⟩]⟩)]
    (str "e2") ⟨str "e2", HandlerKind.sequential, []⟩
  exact ⟨h.1, h.2.1, h.2.2.2 (by decide)⟩

/-- The action instances the scanner creates for the recognized action
bindings of one event name, in the order those attributes are encountered
during the single pass. -/
def expectedActionInsts (reg : FIXRegistry) (doc : List Element) (name : Str) :
    List ActionInst :=
  ((scanActions doc).filter
      (fun b => recognizedA reg b && decide (b.eventName = name))).map mkActionInst

theorem initializeFIX_actsAt (reg : FIXRegistry) (doc : List Element) (name : Str) :
    actsAt (initializeFIX reg doc).events name = expectedActionInsts reg doc name := by
  unfold initializeFIX initializeFIXFrom expectedActionInsts
  rw [foldActions_actsAt, foldTriggers_actsAt]
  simp [actsAt, getEvent]

theorem callsOf_defaultLoop_prefix (el : Nat) (d : TriggerData) :
    ∀ (acts : List ActOutcome) (k : Nat),
      callsOf (defaultLoop el d k acts).1 <+: (List.range acts.length).map (k + ·) := by
  intro acts
  induction acts with
  | nil => intro k; simp [defaultLoop, callsOf]
  | cons a rest ih =>
    intro k
    by_cases ha : a = ActOutcome.throwsSync
    · simp only [defaultLoop, if_pos ha, callsOf, List.filterMap_cons, List.length_cons,
        List.range_succ_eq_map, List.map_cons, List.filterMap_nil]
      rw [List.cons_prefix_cons]
      exact ⟨by omega, List.nil_prefix⟩
    · have ih2 := ih (k + 1)
      simp only [callsOf] at ih2 ⊢
      simp only [defaultLoop, if_neg ha, List.filterMap_cons, List.length_cons,
        List.range_succ_eq_map, List.map_cons, List.map_map]
      rw [List.cons_prefix_cons]
      refine ⟨by omega, ?_⟩
      have hmap : (List.range rest.length).map ((k + ·) ∘ Nat.succ)
          = (List.range rest.length).map (k + 1 + ·) := by
        refine List.map_congr_left ?_
        intro x _
        simp [Function.comp]
        omega
      rw [hmap]
      exact ih2

/-- C4: after a single run of `initializeFIX`, the action list registered
under every event name consists exactly of the instances created for the
recognized action bindings naming that event, in the order encountered
during the single scan pass; and at invocation time both handler strategies
visit the action list they were given in that fixed index order (the
sequential handler calls exactly the indices 0..n-1 in order, the parallel
handler calls a prefix of them in order). -/
theorem initializeFIX_registration_order (reg : FIXRegistry) (doc : List Element)
    (name : Str) :
    actsAt (initializeFIX reg doc).events name = expectedActionInsts reg doc name
    ∧ (∀ (el : Nat) (d : TriggerData) (acts : List ActOutcome),
        callsOf (EventSequential.invoke el d acts) = List.range acts.length)
    ∧ (∀ (el : Nat) (d : TriggerData) (acts : List ActOutcome),
        callsOf (EventDefault.invoke el d acts).1 <+: List.range acts.length) := by
  refine ⟨initializeFIX_actsAt reg doc name, ?_, ?_⟩
  · intro el d acts
    unfold EventSequential.invoke
    by_cases hl : acts.length = 0
    · have hnil : acts = [] := List.length_eq_zero.mp hl
      subst hnil; simp [callsOf]
    · rw [if_neg hl, callsOf_seqLoop el d acts 0]
      simp
  · intro el d acts
    unfold EventDefault.invoke
    by_cases hl : acts.length = 0
    · have hnil : acts = [] := List.length_eq_zero.mp hl
      subst hnil; simp [callsOf]
    · rw [if_neg hl]
      have h := callsOf_defaultLoop_prefix el d acts 0
      have hmap : (List.range acts.length).map (0 + ·) = List.range acts.length := by
        refine (List.map_congr_left ?_).trans (List.map_id _)
        intro x _
        simp
      rwa [hmap] at h

/-- C6: a scanned binding whose type token is not in the Type Registry
produces no instance (the created instance lists cover exactly the
recognized bindings), adds a diagnostic — on the trigger side and on the
action side alike — does not stop the scan, and never creates its target
event: if no recognized binding names an event, the event is still absent
after initialization. -/
theorem unresolved_binding_ignored (reg : FIXRegistry) (doc : List Element) (name : Str)
    (h1 : ∀ b ∈ scanTriggers doc, recognizedT reg b = true → b.eventName ≠ name)
    (h2 : ∀ b ∈ scanActions doc, recognizedA reg b = true → b.eventName ≠ name) :
    hasEvent (initializeFIX reg doc).events name = false
    ∧ (initializeFIX reg doc).triggerInits
        = ((scanTriggers doc).filter (fun b => recognizedT reg b)).map mkTriggerInst
    ∧ (initializeFIX reg doc).actionInits
        = ((scanActions doc).filter (fun b => recognizedA reg b)).map mkActionInst
    ∧ (∀ b ∈ scanTriggers doc, recognizedT reg b = false →
        (str "Unknown trigger type: " ++ triggerTypeOf b.attrName)
          ∈ (initializeFIX reg doc).diagnostics)
    ∧ (∀ b ∈ scanActions doc, recognizedA reg b = false →
        (str "Unknown action type: " ++ triggerTypeOf b.attrName)
          ∈ (initializeFIX reg doc).diagnostics) := by
  refine ⟨?_, ?_, ?_, ?_, ?_⟩
  · unfold initializeFIX initializeFIXFrom
    rw [foldActions_hasEvent, foldTriggers_hasEvent]
    have ht : (scanTriggers doc).any
        (fun b => recognizedT reg b && decide (b.eventName = name)) = false := by
      rw [List.any_eq_false]
      intro b hb hcontra
      rw [Bool.and_eq_true] at hcontra
      exact h1 b hb hcontra.1 (of_decide_eq_true hcontra.2)
    have ha : (scanActions doc).any
        (fun b => recognizedA reg b && decide (b.eventName = name)) = false := by
      rw [List.any_eq_false]
      intro b hb hcontra
      rw [Bool.and_eq_true] at hcontra
      exact h2 b hb hcontra.1 (of_decide_eq_true hcontra.2)
    simp [ht, ha, hasEvent, getEvent]
  · unfold initializeFIX initializeFIXFrom
    rw [foldActions_triggerInits, foldTriggers_triggerInits]
    rfl
  · unfold initializeFIX initializeFIXFrom
    rw [foldActions_actionInits, foldTriggers_actionInits]
    rfl
  · intro b hb hrec
    unfold initializeFIX initializeFIXFrom
    rw [foldActions_diagnostics, foldTriggers_diagnostics]
    refine List.mem_append_left _ ?_
    refine List.mem_append_right _ ?_
    refine List.mem_map_of_mem _ ?_
    rw [List.mem_filter]
    exact ⟨hb, by rw [hrec]; rfl⟩
  · intro b hb hrec
    unfold initializeFIX initializeFIXFrom
    rw [foldActions_diagnostics]
    refine List.mem_append_right _ ?_
    refine List.mem_map_of_mem _ ?_
    rw [List.mem_filter]
    exact ⟨hb, by rw [hrec]; rfl⟩

/-- Witness for C6: one `trigger:click` and one `action:click` attribute with
the type `click` unregistered on either side create no event and no
instances, and both unresolved bindings leave a diagnostic. -/
theorem unresolved_binding_ignored_witness :
    hasEvent (initializeFIX ⟨[], []⟩
        [⟨0, [⟨str "trigger:click", str "go"⟩, ⟨str "action:click", str "go"⟩]⟩]).events
        (str "go") = false
    ∧ (initializeFIX ⟨[], []⟩
        [⟨0, [⟨str "trigger:click", str "go"⟩, ⟨str "action:click", str "go"⟩]⟩]).triggerInits
        = []
    ∧ (initializeFIX ⟨[], []⟩
        [⟨0, [⟨str "trigger:click", str "go"⟩, ⟨str "action:click", str "go"⟩]⟩]).actionInits
        = []
    ∧ (str "Unknown trigger type: " ++ triggerTypeOf (str "trigger:click"))
        ∈ (initializeFIX ⟨[], []⟩
            [⟨0, [⟨str "trigger:click", str "go"⟩, ⟨str "action:click", str "go"⟩]⟩]).diagnostics
    ∧ (str "Unknown action type: " ++ triggerTypeOf (str "action:click"))
        ∈ (initializeFIX ⟨[], []⟩
            [⟨0, [⟨str "trigger:click", str "go"⟩, ⟨str "action:click", str "go"⟩]⟩]).diagnostics := by
  have h := unresolved_binding_ignored ⟨[], []⟩
    [⟨0, [⟨str "trigger:click", str "go"⟩, ⟨str "action:click", str "go"⟩]⟩] (str "go")
    (by decide) (by decide)
  exact ⟨h.1, h.2.1.trans (by decide), h.2.2.1.trans (by decide),
    h.2.2.2.1 ⟨0, str "trigger:click", str "go"⟩ (by decide) (by decide),
    h.2.2.2.2 ⟨0, str "action:click", str "go"⟩ (by decide) (by decide)⟩

theorem initializeFIX_trace_shape (reg : FIXRegistry) (doc : List Element) :
    (initializeFIX reg doc).trace
      = ((scanTriggers doc).filter (fun b => recognizedT reg b)).map
          (fun b => InitEv.triggerInit (mkTriggerInst b))
        ++ ((scanActions doc).filter (fun b => recognizedA reg b)).map
          (fun b => InitEv.actionInit (mkActionInst b)) := by
  unfold initializeFIX initializeFIXFrom
  rw [foldActions_trace, foldTriggers_trace]
  rfl

/-- C9: the scan is two-phased — the initialization trace is the trigger
phase followed by the action phase, so every recognized trigger binding is
instantiated and init()-ed before any recognized action binding is; in
particular a trigger init event always sits strictly before any action init
event in the trace. -/
theorem initializeFIX_two_phase (reg : FIXRegistry) (doc : List Element) :
    (initializeFIX reg doc).trace
      = ((scanTriggers doc).filter (fun b => recognizedT reg b)).map
          (fun b => InitEv.triggerInit (mkTriggerInst b))
        ++ ((scanActions doc).filter (fun b => recognizedA reg b)).map
          (fun b => InitEv.actionInit (mkActionInst b))
    ∧ (∀ (i j : Nat) (t : TriggerInst) (a : ActionInst),
        (initializeFIX reg doc).trace[i]? = some (InitEv.triggerInit t) →
        (initializeFIX reg doc).trace[j]? = some (InitEv.actionInit a) →
        i < j) := by
  have hshape := initializeFIX_trace_shape reg doc
  refine ⟨hshape, ?_⟩
  intro i j t a hi hj
  rw [hshape, List.getElem?_append] at hi hj
  set T := ((scanTriggers doc).filter (fun b => recognizedT reg b)).map
    (fun b => InitEv.triggerInit (mkTriggerInst b)) with hT
  set A := ((scanActions doc).filter (fun b => recognizedA reg b)).map
    (fun b => InitEv.actionInit (mkActionInst b)) with hA
  by_cases hjlt : j < T.length
  · rw [if_pos hjlt, hT, List.getElem?_map] at hj
    cases hx : ((scanTriggers doc).filter (fun b => recognizedT reg b))[j]? with
    | none => rw [hx] at hj; simp at hj
    | some b => rw [hx] at hj; simp at hj
  · by_cases hilt : i < T.length
    · omega
    · rw [if_neg hilt, hA, List.getElem?_map] at hi
      cases hx : ((scanActions doc).filter (fun b => recognizedA reg b))[i - T.length]? with
      | none => rw [hx] at hi; simp at hi
      | some b => rw [hx] at hi; simp at hi

/-- The binding-declaration syntax of the spec, for comparison with the
scanner classifier: the trigger namespace token, a colon, then a single
path segment with no further colons. -/
def triggerDeclSyntax (n : Str) : Bool :=
  (str "trigger:").isPrefixOf n && !((n.drop (str "trigger:").length).contains ':')

/-- Counterexample for C7: a supplement-style attribute name (further path
segments after the type, third segment not `data`) is classified as a
trigger binding by the scanner even though it does not match the
binding-declaration syntax. -/
theorem trigger_classification_counterexample :
    isTriggerAttrName (str "trigger:submit:header:x-auth-token") = true
    ∧ triggerDeclSyntax (str "trigger:submit:header:x-auth-token") = false := by
  decide

theorem isPrefixOf_trigger_colon (r : Str) :
    (str "trigger:").isPrefixOf (str "trigger" ++ ':' :: r) = true := by
  have h8 : str "trigger:" = str "trigger" ++ [':'] := by decide
  rw [h8]
  simp [List.isPrefixOf_iff_prefix, List.prefix_append_right_inj,
    List.cons_prefix_cons, List.nil_prefix]

/-- C7 as amended: the scanner classifies an attribute name as a trigger
binding exactly when it starts with the trigger namespace and its third
colon-separated segment, when present, differs from `data` — so plain
`trigger:<type>` names are classified, `:data:` continuations are excluded,
but names with other further segments (such as a `:header:<key>`
supplement) are classified as trigger bindings as well, with the second
segment as the type. -/
theorem trigger_classification_amended (t s : Str) (segs : List Str)
    (ht : ':' ∉ t) (hs : ':' ∉ s) (hsegs : ∀ g ∈ segs, ':' ∉ g) :
    isTriggerAttrName (str "trigger:" ++ t) = true
    ∧ isTriggerAttrName (joinColon [str "trigger", t, str "data"]) = false
    ∧ isTriggerAttrName (joinColon (str "trigger" :: t :: s :: segs))
        = !(s == str "data") := by
  have h8 : str "trigger:" ++ t = str "trigger" ++ ':' :: t := by
    have : str "trigger:" = str "trigger" ++ [':'] := by decide
    rw [this, List.append_assoc, List.singleton_append]
  refine ⟨?_, ?_, ?_⟩
  · have hsplit : splitColon (str "trigger:" ++ t) = [str "trigger", t] := by
      rw [h8, splitColon_append_colon _ _ (by decide), splitColon_no_colon t ht]
    unfold isTriggerAttrName
    rw [hsplit, h8, isPrefixOf_trigger_colon]
    simp
  · have hsplit : splitColon (joinColon [str "trigger", t, str "data"])
        = [str "trigger", t, str "data"] := by
      refine splitColon_joinColon _ (by simp) ?_
      intro g hg
      simp only [List.mem_cons, List.not_mem_nil, or_false] at hg
      rcases hg with h | h | h
      · subst h; decide
      · subst h; exact ht
      · subst h; decide
    unfold isTriggerAttrName
    rw [hsplit]
    simp [List.get?]
  · have hsplit : splitColon (joinColon (str "trigger" :: t :: s :: segs))
        = str "trigger" :: t :: s :: segs := by
      refine splitColon_joinColon _ (by simp) ?_
      intro g hg
      simp only [List.mem_cons] at hg
      rcases hg with h | h | h | h
      · subst h; decide
      · subst h; exact ht
      · subst h; exact hs
      · exact hsegs g h
    have hjoin : joinColon (str "trigger" :: t :: s :: segs)
        = str "trigger" ++ ':' :: joinColon (t :: s :: segs) := rfl
    unfold isTriggerAttrName
    rw [hsplit, hjoin, isPrefixOf_trigger_colon]
    simp [List.get?]

/-- Witness for the amended C7 at concrete segment values. -/
theorem trigger_classification_amended_witness :
    isTriggerAttrName (str "trigger:" ++ str "click") = true
    ∧ isTriggerAttrName (joinColon [str "trigger", str "click", str "data"]) = false
    ∧ isTriggerAttrName
        (joinColon [str "trigger", str "submit", str "header", str "x-auth"])
        = !(str "header" == str "data") := by
  have h := trigger_classification_amended (str "click") (str "header") [str "x-auth"]
    (by decide) (by decide) (by decide)
  have h2 := trigger_classification_amended (str "submit") (str "header") [str "x-auth"]
    (by decide) (by decide) (by decide)
  exact ⟨h.1, h.2.1, h2.2.2⟩

/-- Witness for C9: with one recognized trigger and one recognized action
binding, the trigger init event (position 0) precedes the action init event
(position 1). -/
theorem initializeFIX_two_phase_witness :
    (initializeFIX ⟨[str "click"], [str "click"]⟩
        [⟨0, [⟨str "trigger:click", str "go"⟩]⟩, ⟨1, [⟨str "action:click", str "go"⟩]⟩]).trace
      = [InitEv.triggerInit ⟨0, str "go", str "trigger:click"⟩,
         InitEv.actionInit ⟨some 1, str "action:click"⟩]
    ∧ (0 : Nat) < 1 := by
  have h := initializeFIX_two_phase ⟨[str "click"], [str "click"]⟩
    [⟨0, [⟨str "trigger:click", str "go"⟩]⟩, ⟨1, [⟨str "action:click", str "go"⟩]⟩]
  refine ⟨h.1.trans (by decide), ?_⟩
  exact h.2 0 1 ⟨0, str "go", str "trigger:click"⟩ ⟨some 1, str "action:click"⟩
    (by decide) (by decide)
